import Mathlib

/-!
Verification of the legacy keystore reader (JKS-style container parser,
password-based key recovery, PKCS#8 key container decoding) against a
shallow Lean embedding of its source.

Byte buffers are modelled as `List Nat` (each element a byte value).
The SHA-1 hash is an external collaborator of the source and is modelled
as an explicit function parameter `hash : List Nat → List Nat`; theorems
that need it assume that every output has the documented 20-byte length.
JavaScript strings are modelled as their lists of 16-bit code units
(`List Nat`, each element below 65536).
-/

namespace JKS

/-! ## Password byte encoding

Embeds `KeyProtector` constructor, `src/lib/encryption/KeyProtector.js`
lines 13-18, and `PasswordDigest.getPreKeyedHash`,
`src/lib/encryption/PasswordDigest.js` lines 18-29.  The JS writes
`charCodeAt >> 8` and `charCodeAt` into a byte buffer; a byte-buffer
store keeps the value modulo 256. -/

/-- Password bytes as built by the `KeyProtector` constructor
(`KeyProtector.js:15-18`): for each code unit, high byte then low byte. -/
def kpPasswdBytes (password : List Nat) : List Nat :=
  password.foldr (fun c acc => ((c >>> 8) % 256) :: (c % 256) :: acc) []

/-- Password bytes as built by `PasswordDigest.getPreKeyedHash`
(`PasswordDigest.js:20-24`); the loop body is the same as in
`KeyProtector`. -/
def pdPasswdBytes (password : List Nat) : List Nat :=
  password.foldr (fun c acc => ((c >>> 8) % 256) :: (c % 256) :: acc) []

/-- The spec's wording of the password encoding: each 16-bit code unit
split into two bytes, most-significant first, concatenated in character
order. -/
def specPwBytes (password : List Nat) : List Nat :=
  (password.map (fun c => [c / 256, c % 256])).flatten

/-- UTF-8 bytes of the fixed 16-character whitener string fed by
`PasswordDigest.getPreKeyedHash` (`PasswordDigest.js:26`,
`Buffer.from` of the ASCII text Mighty Aphrodite). -/
def whitener : List Nat :=
  [77, 105, 103, 104, 116, 121, 32, 65, 112, 104, 114, 111, 100, 105, 116, 101]

/-- The byte sequence with which the whole-file checksum digest is seeded
before any file byte is fed in (`PasswordDigest.js:25-26`): the password
bytes followed by the whitener. -/
def pdSeed (password : List Nat) : List Nat :=
  pdPasswdBytes password ++ whitener

/-! ## Key recovery (`KeyProtector.recover`, `KeyProtector.js:29-112`)

The embedding covers protected-key blobs of length at least
`SALT_LEN + DIGEST_LEN = 40` bytes (the salt-encryptedKey-digest layout
the routine is written for); on that domain the JS length arithmetic is
non-negative and agrees with the `Nat` arithmetic used here.

In the source, `salt` (`protectedKey.slice(0, SALT_LEN)`) is a view that
shares memory with the caller's `protectedKey` buffer, and each round
writes the fresh digest in place into that 20-byte view
(`forge.util.binary.raw.decode(..., digest)`, `KeyProtector.js:63`); a
write past the end of the view is silently dropped.  The model threads
the view's contents (`dg`) explicitly and returns the whole buffer's
final contents alongside the plaintext. -/

/-- Digest output length, `KeyProtector.DIGEST_LEN` (`KeyProtector.js:117`). -/
def DIGEST_LEN : Nat := 20

/-- Salt length, `KeyProtector.SALT_LEN` (`KeyProtector.js:115`). -/
def SALT_LEN : Nat := 20

/-- The fixed legacy key-protection OID (`KeyProtector.js:120`). -/
def KEY_PROTECTOR_OID : String := "1.3.6.1.4.1.42.2.17.1.1"

/-- Errors thrown by `KeyProtector.recover`. -/
inductive RecErr
  | unsupportedAlgorithm
  | integrityError
deriving DecidableEq

/-- Length of the encrypted-key portion,
`protectedKey.length - SALT_LEN - DIGEST_LEN` (`KeyProtector.js:40`). -/
def encrKeyLenOf (blob : List Nat) : Nat :=
  blob.length - SALT_LEN - DIGEST_LEN

/-- Round count, `KeyProtector.js:41-45`: floor division plus one more
round when the length is not a multiple of the digest length. -/
def numRoundsOf (encrKeyLen : Nat) : Nat :=
  encrKeyLen / DIGEST_LEN + (if encrKeyLen % DIGEST_LEN ≠ 0 then 1 else 0)

/-- The salt, `protectedKey.slice(0, SALT_LEN)` (`KeyProtector.js:39`). -/
def saltOf (blob : List Nat) : List Nat :=
  blob.take SALT_LEN

/-- The encrypted-key portion,
`protectedKey.slice(SALT_LEN, encrKeyLen + SALT_LEN)`
(`KeyProtector.js:48-51`). -/
def encrKeyOf (blob : List Nat) : List Nat :=
  (blob.take (encrKeyLenOf blob + SALT_LEN)).drop SALT_LEN

/-- The keystream loop of `KeyProtector.js:56-78`.  Arguments after the
fixed ones: rounds still to run, `xorOffset`, the current contents `dg`
of the 20-byte digest view (initially the salt), and the `xorKey`
buffer.  Each round hashes (password bytes then current view contents),
writes the result in place into the view (clamped to the view's length,
extra salt bytes kept when the hash is shorter), and appends the view -
truncated to the remaining byte count on the last round - to `xorKey`.
Returns the final `xorKey` and the view's final contents. -/
def keyRounds (hash : List Nat → List Nat) (pw : List Nat) (encrLen : Nat) :
    Nat → Nat → List Nat → List Nat → List Nat × List Nat
  | 0, _, dg, xk => (xk, dg)
  | n + 1, off, dg, xk =>
    let d := hash (pw ++ dg)
    let dg' := d.take dg.length ++ dg.drop (min d.length dg.length)
    let xk' := if n = 0 then xk.take off ++ dg'.take (encrLen - off)
               else xk.take off ++ dg'
    keyRounds hash pw encrLen n (off + DIGEST_LEN) dg' xk'

/-- The keystream loop applied as `recover` applies it
(`KeyProtector.js:53-78`): over `numRounds` rounds, starting at offset 0
from the salt view, with `xorKey` initialised to `Buffer.alloc` zeroes. -/
def keyRoundsOf (hash : List Nat → List Nat) (pw blob : List Nat) :
    List Nat × List Nat :=
  keyRounds hash pw (encrKeyOf blob).length (numRoundsOf (encrKeyLenOf blob))
    0 (saltOf blob) (List.replicate (encrKeyOf blob).length 0)

/-- The finished `xorKey` buffer. -/
def xorKeyOf (hash : List Nat → List Nat) (pw blob : List Nat) : List Nat :=
  (keyRoundsOf hash pw blob).1

/-- Contents of the caller's `protectedKey` buffer once the rounds have
run: the digest view (its first `SALT_LEN` bytes) now holds the final
round's output, the rest is untouched. -/
def blobAfterOf (hash : List Nat → List Nat) (pw blob : List Nat) : List Nat :=
  (keyRoundsOf hash pw blob).2 ++ blob.drop SALT_LEN

/-- The XOR loop of `KeyProtector.js:81-84`:
`plainKey[i] = encrKey[i] ^ xorKey[i]`.  When `i` is outside `xorKey`
the JS reads `undefined` and the XOR leaves `encrKey[i]` unchanged,
which the default value 0 reproduces. -/
def plainKeyOf (hash : List Nat → List Nat) (pw blob : List Nat) : List Nat :=
  (List.range (encrKeyOf blob).length).map
    (fun i => Nat.xor ((encrKeyOf blob).getD i 0) ((xorKeyOf hash pw blob).getD i 0))

/-- The integrity digest of `KeyProtector.js:93-95`: a fresh digest of
the password bytes followed by the recovered plaintext. -/
def checkDigestOf (hash : List Nat → List Nat) (pw blob : List Nat) : List Nat :=
  hash (pw ++ plainKeyOf hash pw blob)

/-- The comparison loop of `KeyProtector.js:98-102`: every byte of the
integrity digest must equal the byte of the (mutated) `protectedKey`
buffer at `SALT_LEN + encrKeyLen + i`; a read past the end yields
`undefined` in JS and never compares equal, which the `Option` equality
reproduces. -/
def integrityOk (hash : List Nat → List Nat) (pw blob : List Nat) : Bool :=
  let check := checkDigestOf hash pw blob
  (List.range check.length).all
    (fun i => (blobAfterOf hash pw blob)[SALT_LEN + encrKeyLenOf blob + i]?
      == some (check.getD i 0))

/-- Embeds `KeyProtector.recover` (`KeyProtector.js:29-112`): reject a wrong
algorithm identifier, derive the keystream, XOR, check integrity, and
otherwise hand the plaintext on (the source passes it to
`PKCS8Key.parseKey`).  The result carries the plaintext together with
the final contents of the caller's `protectedKey` buffer. -/
def recover (hash : List Nat → List Nat) (pw : List Nat) (algId : String)
    (blob : List Nat) : Except RecErr (List Nat × List Nat) :=
  if algId ≠ KEY_PROTECTOR_OID then .error .unsupportedAlgorithm
  else if integrityOk hash pw blob then
    .ok (plainKeyOf hash pw blob, blobAfterOf hash pw blob)
  else .error .integrityError

/-! ## Spec-side keystream description (for the refinement statements)

These two definitions follow the spec's words (spec section 4.2, steps
2-3): round 0 digests password-bytes then salt, round `i+1` digests
password-bytes then round `i`'s output, the outputs are concatenated and
the result truncated to the encrypted-key length. -/

/-- Digest output of round `i` as the spec describes it. -/
def roundDigest (hash : List Nat → List Nat) (pw salt : List Nat) : Nat → List Nat
  | 0 => hash (pw ++ salt)
  | n + 1 => hash (pw ++ roundDigest hash pw salt n)

/-- Concatenation of the next `n` round outputs starting from digest
state `dg`. -/
def chainFrom (hash : List Nat → List Nat) (pw : List Nat) : List Nat → Nat → List Nat
  | _, 0 => []
  | dg, n + 1 => hash (pw ++ dg) ++ chainFrom hash pw (hash (pw ++ dg)) n

/-! ## Container parser
(`JavaKeyStoreParser` and `InputStream`, `src/lib/keystore/JavaKeyStoreParser.js`)

`InputStream` keeps an immutable buffer and a cursor.  `DigestInputStream`
is not in the source tree; modelled from the spec: per spec section 4.4
it wraps the stream and feeds every byte consumed into the running
password-seeded digest, in order, exactly once.  The model threads the
list of fed bytes through every read; without a password that list is
simply unused (the source then constructs a plain `InputStream`, whose
reads behave identically).

Fixed-width reads (`readUInt32BE`, `readUInt16BE`, `readBigUInt64BE`)
throw when they would run past the buffer; the length-prefixed
`read(length)` uses `slice`, which clamps to the available bytes and
never throws, while still advancing the cursor by the full declared
length (`JavaKeyStoreParser.js:199-204` of the combined file).

External collaborators: `CertificateFactory.getInstance` and
`generateCertificate` (X.509 decoding) are modelled as accepting any
type string and returning the encoded bytes unchanged; `new Date` and
UTF-8 decoding of alias strings are modelled by keeping the raw numeric
timestamp and raw alias bytes. -/

/-- Parser/reader state: the buffer, the cursor, and the bytes fed to the
checksum digest so far. -/
structure PState where
  buffer : List Nat
  offset : Nat
  fed : List Nat
deriving DecidableEq

/-- Errors aborting a parse.  `invalidFormat` is the source's
"Invalid keystore format" (bad magic or version), `unrecognizedEntry`
its "Unrecognized keystore entry" (bad tag), `authFail` its
"Password verification failed", and `outOfRange` the `RangeError` a
fixed-width buffer read throws past the end. -/
inductive JKSError
  | invalidFormat
  | unrecognizedEntry
  | authFail
  | outOfRange
deriving DecidableEq

/-- A parsed entry: a private key (alias bytes, timestamp, protected key
blob, certificate chain) or a trusted certificate (alias bytes,
timestamp, encoded certificate). -/
inductive JKSEntry
  | privateKey : List Nat → Nat → List Nat → List (List Nat) → JKSEntry
  | trustedCert : List Nat → Nat → List Nat → JKSEntry
deriving DecidableEq

/-- Big-endian value of a byte list (`readUInt32BE` / `readUInt16BE` /
`readBigUInt64BE` on the bytes they cover). -/
def beUInt (bs : List Nat) : Nat :=
  bs.foldl (fun a b => a * 256 + b) 0

/-- Embeds `InputStream.read(length)`: `buffer.slice(offset, offset + length)` -
clamped, never failing - and the cursor advanced by the full declared
length; the returned bytes are fed to the digest. -/
def readBytesM (n : Nat) (s : PState) : List Nat × PState :=
  let bs := (s.buffer.drop s.offset).take n
  (bs, PState.mk s.buffer (s.offset + n) (s.fed ++ bs))

/-- Embeds `InputStream.readInt`: 4-byte big-endian read, failing out-of-range
when fewer than 4 bytes remain. -/
def readIntM (s : PState) : Except JKSError (Nat × PState) :=
  if s.offset + 4 ≤ s.buffer.length then
    .ok (beUInt ((s.buffer.drop s.offset).take 4),
      PState.mk s.buffer (s.offset + 4) (s.fed ++ (s.buffer.drop s.offset).take 4))
  else .error .outOfRange

/-- The 2-byte big-endian length read of `InputStream.readUTF`
(`buffer.readUInt16BE(shift(2))`), failing out-of-range when fewer than
2 bytes remain. -/
def readU16M (s : PState) : Except JKSError (Nat × PState) :=
  if s.offset + 2 ≤ s.buffer.length then
    .ok (beUInt ((s.buffer.drop s.offset).take 2),
      PState.mk s.buffer (s.offset + 2) (s.fed ++ (s.buffer.drop s.offset).take 2))
  else .error .outOfRange

/-- Embeds `InputStream.readUTF`: 2-byte length prefix, then that many bytes
(the alias is kept as raw bytes; `toString` is external decoding). -/
def readUTFM (s : PState) : Except JKSError (List Nat × PState) :=
  match readU16M s with
  | .error e => .error e
  | .ok (n, s1) => .ok (readBytesM n s1)

/-- Embeds `InputStream.readLong`: `read(8)` (a clamped slice) followed by
`readBigUInt64BE`, which fails out-of-range when the slice is shorter
than 8 bytes. -/
def readLongM (s : PState) : Except JKSError (Nat × PState) :=
  let r := readBytesM 8 s
  if r.1.length = 8 then .ok (beUInt r.1, r.2) else .error .outOfRange

/-- Embeds `JavaKeyStoreParser.MAGIC` (`JavaKeyStoreParser.js:40`). -/
def MAGIC : Nat := 0xfeedfeed

/-- Embeds `JavaKeyStoreParser.VERSION_1`. -/
def VERSION_1 : Nat := 1

/-- Embeds `JavaKeyStoreParser.VERSION_2`. -/
def VERSION_2 : Nat := 2

/-- Embeds `JavaKeyStoreParser.PRIVATE_KEY_TAG`. -/
def PRIVATE_KEY_TAG : Nat := 1

/-- Embeds `JavaKeyStoreParser.TRUSTED_CERT_TAG`. -/
def TRUSTED_CERT_TAG : Nat := 2

/-- The default certificate type of version-1 files, the code units of
X.509 (`JavaKeyStoreParser.js:153`). -/
def defaultCertType : List Nat := [88, 46, 53, 48, 57]

/-- Embeds `JavaKeyStoreParser.readCert` (`JavaKeyStoreParser.js:145-161`):
version 2 first reads a certificate-type string (used only to select the
external factory), then a 4-byte length and that many encoded bytes;
`generateCertificate` is external and modelled as the identity on the
encoded bytes. -/
def readCertM (ver : Nat) (s : PState) : Except JKSError (List Nat × PState) :=
  match (if ver = VERSION_2 then readUTFM s else .ok (defaultCertType, s)) with
  | .error e => .error e
  | .ok (_, s1) =>
    match readIntM s1 with
    | .error e => .error e
    | .ok (clen, s2) => .ok (readBytesM clen s2)

/-- The certificate-chain loop of `JavaKeyStoreParser.readCertificateChain`
(`JavaKeyStoreParser.js:171-173`), reading `n` certificates. -/
def certLoop (ver : Nat) : Nat → PState → List (List Nat) →
    Except JKSError (List (List Nat) × PState)
  | 0, s, acc => .ok (acc.reverse, s)
  | n + 1, s, acc =>
    match readCertM ver s with
    | .error e => .error e
    | .ok (c, s1) => certLoop ver n s1 (c :: acc)

/-- Embeds `JavaKeyStoreParser.readCertificateChain` (`JavaKeyStoreParser.js:163-176`):
read the chain count with `readInt`, return an empty chain if it is
negative, otherwise read that many certificates.  `readInt` is
`readUInt32BE`, so the modelled count is a `Nat` exactly as the source's
value is non-negative, and the negative-count branch is kept verbatim. -/
def readChainM (ver : Nat) (s : PState) :
    Except JKSError (List (List Nat) × PState) :=
  match readIntM s with
  | .error e => .error e
  | .ok (cnt, s1) => if cnt < 0 then .ok ([], s1) else certLoop ver cnt s1 []

/-- The entry loop of `JavaKeyStoreParser.parse`
(`JavaKeyStoreParser.js:85-113`): per entry a tag, an alias, a
timestamp, then either a private-key entry (length-prefixed protected
blob via `getPrivateKeyEntry`, then the certificate chain) or a trusted
certificate; any other tag aborts with "Unrecognized keystore entry". -/
def entryLoop (ver : Nat) : Nat → PState → List JKSEntry →
    Except JKSError (List JKSEntry × PState)
  | 0, s, acc => .ok (acc.reverse, s)
  | n + 1, s, acc =>
    match readIntM s with
    | .error e => .error e
    | .ok (tag, s1) =>
      match readUTFM s1 with
      | .error e => .error e
      | .ok (al, s2) =>
        match readLongM s2 with
        | .error e => .error e
        | .ok (ts, s3) =>
          if tag = PRIVATE_KEY_TAG then
            match readIntM s3 with
            | .error e => .error e
            | .ok (klen, s4) =>
              match readChainM ver (readBytesM klen s4).2 with
              | .error e => .error e
              | .ok (chain, s5) =>
                entryLoop ver n s5
                  (JKSEntry.privateKey al ts (readBytesM klen s4).1 chain :: acc)
          else if tag = TRUSTED_CERT_TAG then
            match readCertM ver s3 with
            | .error e => .error e
            | .ok (c, s4) => entryLoop ver n s4 (JKSEntry.trustedCert al ts c :: acc)
          else .error .unrecognizedEntry

/-- Magic, version and count reads with their assertions
(`JavaKeyStoreParser.js:59-82`): both integers are read first, then
magic and version are checked. -/
def parseHeader (buf : List Nat) : Except JKSError (Nat × Nat × PState) :=
  match readIntM (PState.mk buf 0 []) with
  | .error e => .error e
  | .ok (magic, s1) =>
    match readIntM s1 with
    | .error e => .error e
    | .ok (ver, s2) =>
      if magic ≠ MAGIC then .error .invalidFormat
      else if ver ≠ VERSION_1 ∧ ver ≠ VERSION_2 then .error .invalidFormat
      else
        match readIntM s2 with
        | .error e => .error e
        | .ok (count, s3) => .ok (ver, count, s3)

/-- Header plus entry loop: everything `JavaKeyStoreParser.parse` does
before `validateChecksum`. -/
def parseBody (buf : List Nat) : Except JKSError (List JKSEntry × PState) :=
  match parseHeader buf with
  | .error e => .error e
  | .ok (ver, count, s) => entryLoop ver count s []

/-- The comparison of `JavaKeyStoreParser.validateChecksum`
(`JavaKeyStoreParser.js:125-130`): the finished keyed digest against the
buffer bytes at the current cursor (`computed.every`, with a read past
the end yielding `undefined`, which never compares equal). -/
def checksumOk (hash : List Nat → List Nat) (password : List Nat) (s : PState) : Bool :=
  let computed := hash (pdSeed password ++ s.fed)
  (List.range computed.length).all
    (fun i => s.buffer[s.offset + i]? == some (computed.getD i 0))

/-- Embeds `JavaKeyStoreParser.parse` with the constructor's stream choice
(`JavaKeyStoreParser.js:46-57` and `75-118`): parse the body, then -
only when a password was supplied - compare the checksum and fail with
"Password verification failed" on mismatch. -/
def parseJKS (hash : List Nat → List Nat) (password : Option (List Nat))
    (buf : List Nat) : Except JKSError (List JKSEntry) :=
  match parseBody buf with
  | .error e => .error e
  | .ok (es, s) =>
    match password with
    | none => .ok es
    | some p => if checksumOk hash p s then .ok es else .error .authFail

/-! ## PKCS#8 key-container decoder (`PKCS8Key.parseKey`)

`DerValue` is an external collaborator (generic DER decoding); a value
is modelled by the results `parseKey` extracts from it: its tag, the
integer returned by `getBigInteger` (the version), the dotted string of
the algorithm identifier found in the first inner sequence, the outcome
of reading and exporting the inner octet string (`getOctetString`
followed by the external `forge` export, both of whose failures the
source catches together), and the raw backing buffer. -/

/-- Embeds `DerValue.tag_Sequence` (DER constructed SEQUENCE, 0x30). -/
def tagSequence : Nat := 48

/-- Embeds `PKCS8Key.version`, the fixed supported version (source line
`PKCS8Key.version = 0`). -/
def supportedVersion : Int := 0

/-- Embeds `PKCS8Key.supportedTypes` entry for dsa. -/
def oidDSA : String := "1.2.840.10040.4.1"

/-- Embeds `PKCS8Key.supportedTypes` entry for ec. -/
def oidEC : String := "1.2.840.10045.2.1"

/-- Shallow model of the DER value handed to `PKCS8Key.parseKey`;
`octet = none` models a throwing octet-string unwrap/export. -/
structure DerValueM where
  tag : Nat
  version : Int
  algOid : String
  octet : Option (List Nat)
  buffer : List Nat
deriving DecidableEq

/-- Errors of `PKCS8Key.parseKey`: corrupt private key (wrong outer
tag), version mismatch, or the wrapped failure of the octet-string
unwrap/export path (which carries the algorithm identifier in its
message and the cause as context). -/
inductive PKErr
  | corruptKey
  | versionMismatch
  | algError (oid : String)
deriving DecidableEq

/-- Result of `PKCS8Key.parseKey`: `formatted` is the pass-through
rendering `PKCS8Key.format` applied to the raw buffer (dsa/ec family),
`exported` the unwrap path `PKCS8Key.export` applied to the inner octet
string (both renderings themselves are external PEM formatting). -/
inductive PKResult
  | formatted (raw : List Nat)
  | exported (octet : List Nat)
deriving DecidableEq

/-- The algorithm dispatch of `PKCS8Key.parseKey` after the version
check (source `part_000` lines 22-44): dsa/ec identifiers are returned
in final form from the raw buffer, anything else goes through the
octet-string unwrap, whose failure is wrapped with the algorithm
identifier. -/
def algDispatch (v : DerValueM) : Except PKErr PKResult :=
  if v.algOid = oidDSA ∨ v.algOid = oidEC then .ok (.formatted v.buffer)
  else
    match v.octet with
    | some o => .ok (.exported o)
    | none => .error (.algError v.algOid)

/-- Embeds `PKCS8Key.parseKey` (source `part_000` lines 11-45): require a
SEQUENCE tag, require the parsed integer version to equal the fixed
supported version, then dispatch on the algorithm identifier. -/
def parseKey (v : DerValueM) : Except PKErr PKResult :=
  if v.tag ≠ tagSequence then .error .corruptKey
  else if v.version ≠ supportedVersion then .error .versionMismatch
  else algDispatch v

/-! ## Concrete instances used by the witnesses

`tHash` is a stand-in for the external SHA-1 collaborator: a computable
function with the collaborator's 20-byte output length. -/

/-- Concrete 20-byte-output hash used to instantiate the external digest
in witnesses. -/
def tHash (l : List Nat) : List Nat :=
  (List.range 20).map (fun i => (l.foldl (fun a b => a + b) i) % 256)

/-- Concrete password bytes used by witnesses. -/
def wPw : List Nat := [1, 2]

/-- A 45-byte protected blob (one keystream round) accepted by `recover`
under `tHash` and `wPw`: 20 zero salt bytes, 5 zero encrypted-key
bytes, and the matching trailing integrity digest. -/
def wBlob : List Nat :=
  List.replicate 25 0 ++ (List.range 20).map (fun i => 28 + i)

/-- A 65-byte protected blob (two keystream rounds) whose trailing
digest does not match under `tHash` and `wPw`. -/
def wBlob2 : List Nat :=
  List.replicate 20 7 ++ List.replicate 25 0 ++ List.replicate 20 9

/-- A header-only keystore: magic, version 1, zero entries. -/
def buf0 : List Nat := [254, 237, 254, 237, 0, 0, 0, 1, 0, 0, 0, 0]

/-- The header-only keystore with the matching `tHash` checksum for
password `wPw` appended. -/
def buf0c : List Nat := buf0 ++ tHash (pdSeed wPw ++ buf0)

/-- A keystore (no password) whose single trusted-certificate entry
declares 5 certificate bytes but whose buffer ends after 2 of them:
magic, version 1, count 1, tag 2, empty alias, zero timestamp,
certificate length 5, then only the bytes 9, 9. -/
def c7buf : List Nat :=
  [254, 237, 254, 237, 0, 0, 0, 1, 0, 0, 0, 1, 0, 0, 0, 2, 0, 0,
   0, 0, 0, 0, 0, 0, 0, 0, 0, 0, 0, 5, 9, 9]

/-- A keystore whose single private-key entry has an empty protected
blob and stores the chain-count bytes 255 255 255 255 (the big-endian
two's-complement encoding of -1): magic, version 1, count 1, tag 1,
empty alias, zero timestamp, protected-key length 0, chain count. -/
def c6buf : List Nat :=
  [254, 237, 254, 237, 0, 0, 0, 1, 0, 0, 0, 1, 0, 0, 0, 1, 0, 0,
   0, 0, 0, 0, 0, 0, 0, 0, 0, 0, 0, 0, 255, 255, 255, 255]

/-- A keystore whose single entry carries the unrecognized tag 3:
magic, version 1, count 1, tag 3, empty alias, zero timestamp. -/
def c8buf : List Nat :=
  [254, 237, 254, 237, 0, 0, 0, 1, 0, 0, 0, 1, 0, 0, 0, 3, 0, 0,
   0, 0, 0, 0, 0, 0, 0, 0]

/-- The test hash always outputs 20 bytes. -/
theorem tHash_len : ∀ l, (tHash l).length = DIGEST_LEN := by
  intro l
  simp [tHash, DIGEST_LEN]

/-! ## Helper lemmas about the keystream rounds -/

/-- The in-place digest write preserves the length of the digest view. -/
theorem keyRounds_snd_length (hash : List Nat → List Nat) (pw : List Nat)
    (L : Nat) : ∀ n off dg xk,
    ((keyRounds hash pw L n off dg xk).2).length = dg.length := by
  intro n
  induction n with
  | zero => intro off dg xk; rfl
  | succ m ih =>
    intro off dg xk
    rw [keyRounds]
    rw [ih]
    simp only [List.length_append, List.length_take, List.length_drop]
    omega

/-- A round output and every iterated round output is 20 bytes long when
the hash collaborator is. -/
theorem roundDigest_length (hash : List Nat → List Nat) (pw salt : List Nat)
    (Hh : ∀ l, (hash l).length = DIGEST_LEN) :
    ∀ n, (roundDigest hash pw salt n).length = DIGEST_LEN := by
  intro n
  cases n with
  | zero => exact Hh _
  | succ m => exact Hh _

/-- Round `n` starting from the round-0 output of `dg` is round `n + 1`
starting from `dg`. -/
theorem roundDigest_shift (hash : List Nat → List Nat) (pw : List Nat) :
    ∀ n dg, roundDigest hash pw (hash (pw ++ dg)) n
      = roundDigest hash pw dg (n + 1) := by
  intro n
  induction n with
  | zero => intro dg; rfl
  | succ m ih =>
    intro dg
    rw [roundDigest, roundDigest, ih]

/-- Length of the concatenated round outputs. -/
theorem chainFrom_length (hash : List Nat → List Nat) (pw : List Nat)
    (Hh : ∀ l, (hash l).length = DIGEST_LEN) :
    ∀ n dg, (chainFrom hash pw dg n).length = DIGEST_LEN * n := by
  intro n
  induction n with
  | zero => intro dg; simp [chainFrom]
  | succ m ih =>
    intro dg
    rw [chainFrom]
    simp only [List.length_append, Hh, ih]
    ring

/-- On a 20-byte digest view with a 20-byte hash, the in-place write
replaces the view's contents with the fresh digest. -/
theorem dgStep_eq (hash : List Nat → List Nat) (pw dg : List Nat)
    (Hh : ∀ l, (hash l).length = DIGEST_LEN) (hdg : dg.length = DIGEST_LEN) :
    (hash (pw ++ dg)).take dg.length
      ++ dg.drop (min (hash (pw ++ dg)).length dg.length)
      = hash (pw ++ dg) := by
  have hlen : (hash (pw ++ dg)).length = dg.length := by rw [Hh, hdg]
  rw [← hlen, min_self, List.take_length, hlen, List.drop_length, List.append_nil]

/-- The digest view after `n + 1` rounds holds the output of round `n`. -/
theorem keyRounds_snd (hash : List Nat → List Nat) (pw : List Nat) (L : Nat)
    (Hh : ∀ l, (hash l).length = DIGEST_LEN) :
    ∀ n off dg xk, dg.length = DIGEST_LEN →
    (keyRounds hash pw L (n + 1) off dg xk).2 = roundDigest hash pw dg n := by
  intro n
  induction n with
  | zero =>
    intro off dg xk hdg
    rw [keyRounds]
    simp only [dgStep_eq hash pw dg Hh hdg]
    rfl
  | succ m ih =>
    intro off dg xk hdg
    rw [keyRounds]
    simp only [dgStep_eq hash pw dg Hh hdg]
    rw [ih _ _ _ (Hh _), roundDigest_shift]

/-- Characterisation of the finished `xorKey`: `n + 1` rounds starting at
offset `off` append the concatenated round outputs, truncated to the
remaining byte count, to the already-written prefix. -/
theorem keyRounds_fst (hash : List Nat → List Nat) (pw : List Nat) (L : Nat)
    (Hh : ∀ l, (hash l).length = DIGEST_LEN) :
    ∀ n off dg xk, dg.length = DIGEST_LEN → off ≤ xk.length →
      off + DIGEST_LEN * n ≤ L →
    (keyRounds hash pw L (n + 1) off dg xk).1
      = xk.take off ++ (chainFrom hash pw dg (n + 1)).take (L - off) := by
  intro n
  induction n with
  | zero =>
    intro off dg xk hdg hoff hL
    simp [keyRounds, chainFrom, dgStep_eq hash pw dg Hh hdg]
  | succ m ih =>
    intro off dg xk hdg hoff hL
    have hd20 : (hash (pw ++ dg)).length = DIGEST_LEN := Hh _
    have hdle : (hash (pw ++ dg)).length ≤ L - off := by
      rw [hd20]
      simp only [DIGEST_LEN] at hL ⊢
      omega
    rw [keyRounds]
    simp only [dgStep_eq hash pw dg Hh hdg, if_neg (Nat.succ_ne_zero m)]
    conv_rhs => rw [chainFrom]
    rw [List.take_append_eq_append_take, List.take_of_length_le hdle, hd20]
    rw [ih (off + DIGEST_LEN) (hash (pw ++ dg)) (xk.take off ++ hash (pw ++ dg)) (Hh _)
      (by simp only [List.length_append, List.length_take, hd20]; omega)
      (by simp only [DIGEST_LEN] at hL ⊢; omega)]
    have h1 : (xk.take off ++ hash (pw ++ dg)).take (off + DIGEST_LEN)
        = xk.take off ++ hash (pw ++ dg) :=
      List.take_of_length_le
        (by simp only [List.length_append, List.length_take, hd20]; omega)
    have h2 : L - (off + DIGEST_LEN) = L - off - DIGEST_LEN := by omega
    rw [h1, h2, List.append_assoc]

/-! ## Blob-level lemmas -/

/-- The salt slice of a well-formed blob is 20 bytes long. -/
theorem saltOf_length (blob : List Nat) (hl : 40 ≤ blob.length) :
    (saltOf blob).length = DIGEST_LEN := by
  simp only [saltOf, List.length_take, SALT_LEN, DIGEST_LEN]
  omega

/-- The encrypted-key slice really has the encrypted-key length. -/
theorem encrKeyOf_length (blob : List Nat) (hl : 40 ≤ blob.length) :
    (encrKeyOf blob).length = encrKeyLenOf blob := by
  simp only [encrKeyOf, encrKeyLenOf, List.length_drop, List.length_take,
    SALT_LEN, DIGEST_LEN]
  omega

/-- The source's floor-plus-remainder round count is the ceiling. -/
theorem numRoundsOf_eq_ceil (n : Nat) :
    numRoundsOf n = (n + DIGEST_LEN - 1) / DIGEST_LEN := by
  simp only [numRoundsOf, DIGEST_LEN]
  rcases Nat.eq_zero_or_pos (n % 20) with h | h
  · simp only [h, ne_eq, not_true_eq_false, if_false]
    omega
  · rw [if_pos (by omega)]
    omega

/-- Round-count bounds: the keystream rounds cover the encrypted-key
length without a full spare round. -/
theorem numRoundsOf_bounds (n : Nat) (hn : 0 < n) :
    0 < numRoundsOf n ∧ n ≤ DIGEST_LEN * numRoundsOf n
      ∧ DIGEST_LEN * (numRoundsOf n - 1) < n := by
  simp only [numRoundsOf, DIGEST_LEN]
  rcases Nat.eq_zero_or_pos (n % 20) with h | h
  · simp only [h, ne_eq, not_true_eq_false, if_false]
    omega
  · rw [if_pos (by omega)]
    omega

/-- The finished `xorKey` is the spec's keystream: the concatenated
round outputs, truncated to the encrypted-key length. -/
theorem xorKeyOf_spec (hash : List Nat → List Nat) (pw blob : List Nat)
    (Hh : ∀ l, (hash l).length = DIGEST_LEN) (hl : 40 ≤ blob.length) :
    xorKeyOf hash pw blob
      = (chainFrom hash pw (saltOf blob) (numRoundsOf (encrKeyLenOf blob))).take
          (encrKeyLenOf blob) := by
  have hek := encrKeyOf_length blob hl
  rcases Nat.eq_zero_or_pos (encrKeyLenOf blob) with h0 | hpos
  · simp only [xorKeyOf, keyRoundsOf, hek, h0, numRoundsOf, DIGEST_LEN]
    simp [keyRounds, chainFrom]
  · obtain ⟨hR, hub, hlb⟩ := numRoundsOf_bounds (encrKeyLenOf blob) hpos
    have hRsucc : numRoundsOf (encrKeyLenOf blob)
        = (numRoundsOf (encrKeyLenOf blob) - 1) + 1 := by omega
    rw [xorKeyOf, keyRoundsOf, hek, hRsucc]
    rw [keyRounds_fst hash pw (encrKeyLenOf blob) Hh
      (numRoundsOf (encrKeyLenOf blob) - 1) 0 (saltOf blob) _
      (saltOf_length blob hl) (Nat.zero_le _)
      (by simp only [DIGEST_LEN] at hlb ⊢; omega)]
    rw [List.take_zero, List.nil_append, Nat.sub_zero, ← hRsucc]

/-- The password-byte builders add two bytes per character. -/
theorem kpPasswdBytes_length :
    ∀ pw : List Nat, (kpPasswdBytes pw).length = 2 * pw.length := by
  intro pw
  induction pw with
  | nil => rfl
  | cons c cs ih =>
    simp only [kpPasswdBytes, List.foldr_cons, List.length_cons] at ih ⊢
    omega

/-- The password-byte builders agree with the spec's big-endian encoding
on 16-bit code units. -/
theorem kpPasswdBytes_spec :
    ∀ pw : List Nat, (∀ c ∈ pw, c < 65536) →
      kpPasswdBytes pw = specPwBytes pw := by
  intro pw
  induction pw with
  | nil => intro _; rfl
  | cons c cs ih =>
    intro h
    have hc : c < 65536 := h c (List.mem_cons_self c cs)
    have hhi : (c >>> 8) % 256 = c / 256 := by
      have hs : c >>> 8 = c / 256 := by
        rw [Nat.shiftRight_eq_div_pow]
      rw [hs, Nat.mod_eq_of_lt (by omega)]
    have ih' := ih (fun x hx => h x (List.mem_cons_of_mem c hx))
    simp only [kpPasswdBytes, List.foldr_cons, specPwBytes, List.map_cons,
      List.flatten_cons, hhi] at ih' ⊢
    rw [ih']
    rfl

/-! ## Claim theorems -/

/-- C5: for every password, both the key-recovery password bytes and the
whole-file checksum digest's password bytes encode each character's
16-bit code unit as two bytes most-significant first, concatenated in
character order (2 bytes per character), and the checksum digest is
seeded with these bytes followed by the fixed 16-byte domain-separation
constant before any file byte is fed in. -/
theorem password_encoding_c5 (password : List Nat)
    (hpw : ∀ c ∈ password, c < 65536) :
    kpPasswdBytes password = specPwBytes password
    ∧ pdPasswdBytes password = specPwBytes password
    ∧ (kpPasswdBytes password).length = 2 * password.length
    ∧ pdSeed password = specPwBytes password ++ whitener
    ∧ whitener.length = 16 := by
  have h1 := kpPasswdBytes_spec password hpw
  have h2 : pdPasswdBytes password = specPwBytes password := h1
  refine ⟨h1, h2, kpPasswdBytes_length password, ?_, rfl⟩
  rw [pdSeed, h2]

/-- Witness for C5 at the concrete two-character password 65, 266. -/
theorem password_encoding_c5_witness :
    (∀ c ∈ ([65, 266] : List Nat), c < 65536)
    ∧ (kpPasswdBytes [65, 266] = specPwBytes [65, 266]
      ∧ pdPasswdBytes [65, 266] = specPwBytes [65, 266]
      ∧ (kpPasswdBytes [65, 266]).length = 2 * ([65, 266] : List Nat).length
      ∧ pdSeed [65, 266] = specPwBytes [65, 266] ++ whitener
      ∧ whitener.length = 16) :=
  ⟨by decide, password_encoding_c5 [65, 266] (by decide)⟩

/-- C9: for every DER value handed to the key-container decoder whose
outer tag is a SEQUENCE, a parsed integer version different from the
fixed supported version 0 makes `parseKey` fail with the version
mismatch, and a version equal to 0 makes `parseKey` proceed to the
algorithm dispatch. -/
theorem parseKey_version_c9 (v : DerValueM) (htag : v.tag = tagSequence) :
    supportedVersion = 0
    ∧ (v.version ≠ 0 → parseKey v = .error .versionMismatch)
    ∧ (v.version = 0 → parseKey v = algDispatch v) := by
  refine ⟨rfl, ?_, ?_⟩ <;> intro hv <;>
    simp [parseKey, htag, supportedVersion, hv]

/-- Witness for C9 at a concrete SEQUENCE-tagged value with version 1. -/
theorem parseKey_version_c9_witness :
    (DerValueM.mk 48 1 oidDSA none []).tag = tagSequence
    ∧ (supportedVersion = 0
      ∧ ((DerValueM.mk 48 1 oidDSA none []).version ≠ 0 →
          parseKey (DerValueM.mk 48 1 oidDSA none []) = .error .versionMismatch)
      ∧ ((DerValueM.mk 48 1 oidDSA none []).version = 0 →
          parseKey (DerValueM.mk 48 1 oidDSA none [])
            = algDispatch (DerValueM.mk 48 1 oidDSA none []))) :=
  ⟨rfl, parseKey_version_c9 (DerValueM.mk 48 1 oidDSA none []) rfl⟩

/-- C8: an entry whose tag is neither 1 (private key) nor 2 (trusted
certificate) makes the entry loop - and with it any parse that reaches
that entry - fail immediately with the unrecognized-entry error: no
later entry is read and no entry list is returned. -/
theorem unrecognized_tag_c8 (ver n : Nat) (s s1 s2 s3 : PState)
    (acc : List JKSEntry) (t ts : Nat) (al : List Nat)
    (h1 : readIntM s = .ok (t, s1)) (h2 : readUTFM s1 = .ok (al, s2))
    (h3 : readLongM s2 = .ok (ts, s3))
    (h4 : t ≠ PRIVATE_KEY_TAG) (h5 : t ≠ TRUSTED_CERT_TAG) :
    entryLoop ver (n + 1) s acc = .error .unrecognizedEntry
    ∧ ∀ hash pw buf, parseHeader buf = .ok (ver, n + 1, s) →
        parseJKS hash pw buf = .error .unrecognizedEntry := by
  have hloop : ∀ a : List JKSEntry,
      entryLoop ver (n + 1) s a = .error .unrecognizedEntry := by
    intro a
    simp [entryLoop, h1, h2, h3, h4, h5]
  refine ⟨hloop acc, ?_⟩
  intro hash pw buf hh
  have hbody : parseBody buf = .error .unrecognizedEntry := by
    simp [parseBody, hh, hloop]
  cases pw with
  | none => simp [parseJKS, hbody]
  | some p => simp [parseJKS, hbody]

/-- Witness for C8 at the concrete buffer `c8buf`, whose single entry
has tag 3. -/
theorem unrecognized_tag_c8_witness :
    readIntM (PState.mk c8buf 12 (c8buf.take 12))
      = .ok (3, PState.mk c8buf 16 (c8buf.take 16))
    ∧ readUTFM (PState.mk c8buf 16 (c8buf.take 16))
      = .ok ([], PState.mk c8buf 18 (c8buf.take 18))
    ∧ readLongM (PState.mk c8buf 18 (c8buf.take 18))
      = .ok (0, PState.mk c8buf 26 (c8buf.take 26))
    ∧ (3 : Nat) ≠ PRIVATE_KEY_TAG ∧ (3 : Nat) ≠ TRUSTED_CERT_TAG
    ∧ (entryLoop 1 1 (PState.mk c8buf 12 (c8buf.take 12)) []
        = .error .unrecognizedEntry
      ∧ ∀ hash pw buf,
          parseHeader buf = .ok (1, 1, PState.mk c8buf 12 (c8buf.take 12)) →
          parseJKS hash pw buf = .error .unrecognizedEntry) :=
  ⟨rfl, rfl, rfl, by decide, by decide,
    unrecognized_tag_c8 1 0 (PState.mk c8buf 12 (c8buf.take 12))
      (PState.mk c8buf 16 (c8buf.take 16)) (PState.mk c8buf 18 (c8buf.take 18))
      (PState.mk c8buf 26 (c8buf.take 26)) [] 3 0 []
      rfl rfl rfl (by decide) (by decide)⟩

/-- C4: once the body of a buffer parses, a parse with a password fails
with the authentication error exactly when some byte of the running
keyed digest differs from the buffer byte following the last entry
(succeeding otherwise), and a parse with no password performs no
checksum comparison and succeeds regardless of any trailing bytes. -/
theorem checksum_c4 (hash : List Nat → List Nat) (p buf : List Nat)
    (es : List JKSEntry) (s : PState)
    (hbody : parseBody buf = .ok (es, s)) :
    (parseJKS hash (some p) buf = .error .authFail
      ↔ ∃ i, i < (hash (pdSeed p ++ s.fed)).length ∧
          s.buffer[s.offset + i]? ≠ some ((hash (pdSeed p ++ s.fed)).getD i 0))
    ∧ ((∀ i, i < (hash (pdSeed p ++ s.fed)).length →
          s.buffer[s.offset + i]? = some ((hash (pdSeed p ++ s.fed)).getD i 0)) →
        parseJKS hash (some p) buf = .ok es)
    ∧ parseJKS hash none buf = .ok es := by
  have hsome : parseJKS hash (some p) buf
      = if checksumOk hash p s then .ok es else .error .authFail := by
    simp [parseJKS, hbody]
  have hnone : parseJKS hash none buf = .ok es := by
    simp [parseJKS, hbody]
  have hco : checksumOk hash p s = true
      ↔ ∀ i, i < (hash (pdSeed p ++ s.fed)).length →
          s.buffer[s.offset + i]? = some ((hash (pdSeed p ++ s.fed)).getD i 0) := by
    simp [checksumOk, List.all_eq_true, List.mem_range]
  refine ⟨?_, ?_, hnone⟩
  · rw [hsome]
    by_cases hc : checksumOk hash p s = true
    · rw [if_pos hc]
      constructor
      · intro habs
        simp at habs
      · rintro ⟨i, hi, hne⟩
        exact absurd (hco.mp hc i hi) hne
    · rw [if_neg hc]
      have hex : ∃ i, i < (hash (pdSeed p ++ s.fed)).length ∧
          s.buffer[s.offset + i]? ≠ some ((hash (pdSeed p ++ s.fed)).getD i 0) := by
        have hna : ¬ ∀ i, i < (hash (pdSeed p ++ s.fed)).length →
            s.buffer[s.offset + i]? = some ((hash (pdSeed p ++ s.fed)).getD i 0) :=
          fun hall => hc (hco.mpr hall)
        push_neg at hna
        exact hna
      exact iff_of_true rfl hex
  · intro hall
    rw [hsome, if_pos (hco.mpr hall)]

/-- Witness for C4 at the header-only keystore `buf0` (zero entries,
whole buffer fed to the digest). -/
theorem checksum_c4_witness :
    parseBody buf0 = .ok ([], PState.mk buf0 12 buf0)
    ∧ ((parseJKS tHash (some wPw) buf0 = .error .authFail
        ↔ ∃ i, i < (tHash (pdSeed wPw ++ buf0)).length ∧
            buf0[12 + i]? ≠ some ((tHash (pdSeed wPw ++ buf0)).getD i 0))
      ∧ ((∀ i, i < (tHash (pdSeed wPw ++ buf0)).length →
            buf0[12 + i]? = some ((tHash (pdSeed wPw ++ buf0)).getD i 0)) →
          parseJKS tHash (some wPw) buf0 = .ok [])
      ∧ parseJKS tHash none buf0 = .ok []) :=
  ⟨rfl, checksum_c4 tHash wPw buf0 [] (PState.mk buf0 12 buf0) rfl⟩

/-- C2: recover splits the blob as salt = first 20 bytes, encrypted key
= next len - 40 bytes, trailing digest = last 20 bytes; it uses exactly
ceil(encrKeyLen / 20) keystream rounds - 1 round for 20 bytes, 2 rounds
for 21..40 bytes - and the final round's truncation keeps the keystream
at exactly the encrypted-key length, never beyond it. -/
theorem blob_split_rounds_c2 (hash : List Nat → List Nat) (pw blob : List Nat)
    (Hh : ∀ l, (hash l).length = DIGEST_LEN) (hl : 40 ≤ blob.length) :
    saltOf blob = blob.take 20
    ∧ encrKeyOf blob = (blob.drop 20).take (blob.length - 40)
    ∧ (encrKeyOf blob).length = blob.length - 40
    ∧ blob.drop (SALT_LEN + encrKeyLenOf blob) = blob.drop (blob.length - 20)
    ∧ (blob.drop (blob.length - 20)).length = 20
    ∧ (∀ n, numRoundsOf n = (n + DIGEST_LEN - 1) / DIGEST_LEN)
    ∧ numRoundsOf 20 = 1
    ∧ (∀ n, 21 ≤ n → n ≤ 40 → numRoundsOf n = 2)
    ∧ (xorKeyOf hash pw blob).length = encrKeyLenOf blob := by
  have harith : encrKeyLenOf blob + SALT_LEN - SALT_LEN = blob.length - 40 := by
    simp only [encrKeyLenOf, SALT_LEN, DIGEST_LEN]
    omega
  have hidx : SALT_LEN + encrKeyLenOf blob = blob.length - 20 := by
    simp only [encrKeyLenOf, SALT_LEN, DIGEST_LEN]
    omega
  refine ⟨rfl, ?_, ?_, ?_, ?_, numRoundsOf_eq_ceil, by decide, ?_, ?_⟩
  · rw [encrKeyOf, List.drop_take, harith]
    rfl
  · rw [encrKeyOf_length blob hl]
    simp only [encrKeyLenOf, SALT_LEN, DIGEST_LEN]
    omega
  · rw [hidx]
  · simp only [List.length_drop]
    omega
  · intro n h21 h40
    rw [numRoundsOf_eq_ceil n]
    simp only [DIGEST_LEN]
    omega
  · rw [xorKeyOf_spec hash pw blob Hh hl, List.length_take,
      chainFrom_length hash pw Hh]
    rcases Nat.eq_zero_or_pos (encrKeyLenOf blob) with h0 | hpos
    · simp [h0]
    · obtain ⟨_, hub, _⟩ := numRoundsOf_bounds _ hpos
      omega

/-- Witness for C2 at the one-round blob `wBlob`. -/
theorem blob_split_rounds_c2_witness :
    (∀ l, (tHash l).length = DIGEST_LEN) ∧ 40 ≤ wBlob.length
    ∧ (saltOf wBlob = wBlob.take 20
      ∧ encrKeyOf wBlob = (wBlob.drop 20).take (wBlob.length - 40)
      ∧ (encrKeyOf wBlob).length = wBlob.length - 40
      ∧ wBlob.drop (SALT_LEN + encrKeyLenOf wBlob) = wBlob.drop (wBlob.length - 20)
      ∧ (wBlob.drop (wBlob.length - 20)).length = 20
      ∧ (∀ n, numRoundsOf n = (n + DIGEST_LEN - 1) / DIGEST_LEN)
      ∧ numRoundsOf 20 = 1
      ∧ (∀ n, 21 ≤ n → n ≤ 40 → numRoundsOf n = 2)
      ∧ (xorKeyOf tHash wPw wBlob).length = encrKeyLenOf wBlob) :=
  ⟨tHash_len, by decide, blob_split_rounds_c2 tHash wPw wBlob tHash_len (by decide)⟩

/-- Any accepted recovery returns the plaintext and mutated blob the
model computes. -/
theorem recover_ok_elim (hash : List Nat → List Nat) (pw blob : List Nat)
    (p bA : List Nat)
    (hrec : recover hash pw KEY_PROTECTOR_OID blob = .ok (p, bA)) :
    p = plainKeyOf hash pw blob ∧ bA = blobAfterOf hash pw blob := by
  by_cases hintg : integrityOk hash pw blob = true
  · rw [recover, if_neg (by simp), if_pos hintg] at hrec
    simp only [Except.ok.injEq, Prod.mk.injEq] at hrec
    exact ⟨hrec.1.symm, hrec.2.symm⟩
  · rw [recover, if_neg (by simp), if_neg hintg] at hrec
    cases hrec

/-- C1: the keystream is derived iteratively - round 0 digests the
password bytes then the salt, each later round digests the password
bytes then the previous round's output, each round contributes its
20-byte output as the next keystream slice with the final round
truncated to the remaining length - and every plaintext byte returned
by an accepted recovery is the XOR of the corresponding encrypted-key
byte and keystream byte. -/
theorem keystream_xor_c1 (hash : List Nat → List Nat) (pw blob : List Nat)
    (Hh : ∀ l, (hash l).length = DIGEST_LEN) (hl : 40 ≤ blob.length) :
    xorKeyOf hash pw blob
      = (chainFrom hash pw (saltOf blob) (numRoundsOf (encrKeyLenOf blob))).take
          (encrKeyLenOf blob)
    ∧ ∀ p bA, recover hash pw KEY_PROTECTOR_OID blob = .ok (p, bA) →
        p.length = encrKeyLenOf blob
        ∧ ∀ i, i < encrKeyLenOf blob →
            p.getD i 0 = Nat.xor (blob.getD (SALT_LEN + i) 0)
              ((xorKeyOf hash pw blob).getD i 0) := by
  refine ⟨xorKeyOf_spec hash pw blob Hh hl, ?_⟩
  intro p bA hrec
  obtain ⟨hp, _⟩ := recover_ok_elim hash pw blob p bA hrec
  subst hp
  constructor
  · simp only [plainKeyOf, List.length_map, List.length_range]
    exact encrKeyOf_length blob hl
  · intro i hi
    have hrange : i < (encrKeyOf blob).length := by
      rw [encrKeyOf_length blob hl]
      exact hi
    have h1 : (plainKeyOf hash pw blob).getD i 0
        = Nat.xor ((encrKeyOf blob).getD i 0) ((xorKeyOf hash pw blob).getD i 0) := by
      simp only [plainKeyOf, List.getD_eq_getElem?_getD, List.getElem?_map,
        List.getElem?_range hrange, Option.map_some', Option.getD_some]
    rw [h1]
    congr 1
    rw [List.getD_eq_getElem?_getD, List.getD_eq_getElem?_getD, encrKeyOf,
      List.getElem?_drop, List.getElem?_take_of_lt (by omega)]

/-- Witness for C1 at the one-round blob `wBlob`, which `recover`
accepts under `tHash` and `wPw`. -/
theorem keystream_xor_c1_witness :
    (∀ l, (tHash l).length = DIGEST_LEN) ∧ 40 ≤ wBlob.length
    ∧ (xorKeyOf tHash wPw wBlob
        = (chainFrom tHash wPw (saltOf wBlob)
            (numRoundsOf (encrKeyLenOf wBlob))).take (encrKeyLenOf wBlob)
      ∧ ∀ p bA, recover tHash wPw KEY_PROTECTOR_OID wBlob = .ok (p, bA) →
          p.length = encrKeyLenOf wBlob
          ∧ ∀ i, i < encrKeyLenOf wBlob →
              p.getD i 0 = Nat.xor (wBlob.getD (SALT_LEN + i) 0)
                ((xorKeyOf tHash wPw wBlob).getD i 0)) :=
  ⟨tHash_len, by decide, keystream_xor_c1 tHash wPw wBlob tHash_len (by decide)⟩

/-- Reading the mutated blob at or beyond the encrypted-key region sees
the original blob's bytes: the in-place digest writes touch only the
first 20 bytes. -/
theorem blobAfterOf_trailing (hash : List Nat → List Nat) (pw blob : List Nat)
    (hl : 40 ≤ blob.length) (i : Nat) :
    (blobAfterOf hash pw blob)[SALT_LEN + encrKeyLenOf blob + i]?
      = blob[SALT_LEN + encrKeyLenOf blob + i]? := by
  have hdg : ((keyRoundsOf hash pw blob).2).length = DIGEST_LEN := by
    rw [keyRoundsOf, keyRounds_snd_length]
    exact saltOf_length blob hl
  rw [blobAfterOf,
    List.getElem?_append_right (by rw [hdg]; simp only [SALT_LEN, DIGEST_LEN]; omega),
    hdg, List.getElem?_drop]
  congr 1
  simp only [SALT_LEN, DIGEST_LEN]
  omega

/-- C3: recovery fails with the integrity error exactly when the digest
of (password bytes then plaintext) differs from the blob's trailing 20
digest bytes in at least one position; when the digests agree
byte-for-byte the plaintext is returned (and handed on to the
key-container decoder), so no bytes failing the comparison are ever
returned. -/
theorem integrity_iff_c3 (hash : List Nat → List Nat) (pw blob : List Nat)
    (Hh : ∀ l, (hash l).length = DIGEST_LEN) (hl : 40 ≤ blob.length) :
    (recover hash pw KEY_PROTECTOR_OID blob = .error .integrityError
      ↔ ∃ i, i < DIGEST_LEN ∧
          (checkDigestOf hash pw blob).getD i 0
            ≠ (blob.drop (blob.length - DIGEST_LEN)).getD i 0)
    ∧ ((∀ i, i < DIGEST_LEN →
          (checkDigestOf hash pw blob).getD i 0
            = (blob.drop (blob.length - DIGEST_LEN)).getD i 0) →
        recover hash pw KEY_PROTECTOR_OID blob
          = .ok (plainKeyOf hash pw blob, blobAfterOf hash pw blob)) := by
  have hchk : (checkDigestOf hash pw blob).length = DIGEST_LEN := Hh _
  have hbridge : ∀ i, i < DIGEST_LEN →
      ((blobAfterOf hash pw blob)[SALT_LEN + encrKeyLenOf blob + i]?
          = some ((checkDigestOf hash pw blob).getD i 0)
        ↔ (checkDigestOf hash pw blob).getD i 0
          = (blob.drop (blob.length - DIGEST_LEN)).getD i 0) := by
    intro i hi
    rw [blobAfterOf_trailing hash pw blob hl i]
    have hlt : blob.length - DIGEST_LEN + i < blob.length := by
      simp only [DIGEST_LEN] at hi ⊢
      omega
    have hidx : SALT_LEN + encrKeyLenOf blob + i = blob.length - DIGEST_LEN + i := by
      simp only [SALT_LEN, DIGEST_LEN, encrKeyLenOf]
      omega
    have hsome : blob[blob.length - DIGEST_LEN + i]?
        = some (blob.getD (blob.length - DIGEST_LEN + i) 0) := by
      rw [List.getD_eq_getElem?_getD, List.getElem?_eq_getElem hlt,
        Option.getD_some]
    have hdrop : (blob.drop (blob.length - DIGEST_LEN)).getD i 0
        = blob.getD (blob.length - DIGEST_LEN + i) 0 := by
      rw [List.getD_eq_getElem?_getD, List.getElem?_drop, hsome,
        Option.getD_some]
    rw [hidx, hdrop, hsome]
    exact ⟨fun h => (Option.some_inj.mp h).symm, fun h => by rw [h]⟩
  have hintgIff : integrityOk hash pw blob = true
      ↔ ∀ i, i < DIGEST_LEN →
          (checkDigestOf hash pw blob).getD i 0
            = (blob.drop (blob.length - DIGEST_LEN)).getD i 0 := by
    rw [integrityOk]
    simp only [List.all_eq_true, List.mem_range, beq_iff_eq, hchk]
    exact forall_congr' (fun i => imp_congr_right (fun hi => hbridge i hi))
  constructor
  · constructor
    · intro herr
      by_cases hintg : integrityOk hash pw blob = true
      · rw [recover, if_neg (by simp), if_pos hintg] at herr
        cases herr
      · have hna : ¬ ∀ i, i < DIGEST_LEN →
            (checkDigestOf hash pw blob).getD i 0
              = (blob.drop (blob.length - DIGEST_LEN)).getD i 0 :=
          fun hall => hintg (hintgIff.mpr hall)
        push_neg at hna
        exact hna
    · rintro ⟨i, hi, hne⟩
      have hintg : ¬ integrityOk hash pw blob = true :=
        fun h => hne (hintgIff.mp h i hi)
      rw [recover, if_neg (by simp), if_neg hintg]
  · intro hall
    rw [recover, if_neg (by simp), if_pos (hintgIff.mpr hall)]

/-- Witness for C3 at the two-round blob `wBlob2`, whose trailing
digest bytes do not match under `tHash` and `wPw`. -/
theorem integrity_iff_c3_witness :
    (∀ l, (tHash l).length = DIGEST_LEN) ∧ 40 ≤ wBlob2.length
    ∧ ((recover tHash wPw KEY_PROTECTOR_OID wBlob2 = .error .integrityError
        ↔ ∃ i, i < DIGEST_LEN ∧
            (checkDigestOf tHash wPw wBlob2).getD i 0
              ≠ (wBlob2.drop (wBlob2.length - DIGEST_LEN)).getD i 0)
      ∧ ((∀ i, i < DIGEST_LEN →
            (checkDigestOf tHash wPw wBlob2).getD i 0
              = (wBlob2.drop (wBlob2.length - DIGEST_LEN)).getD i 0) →
          recover tHash wPw KEY_PROTECTOR_OID wBlob2
            = .ok (plainKeyOf tHash wPw wBlob2, blobAfterOf tHash wPw wBlob2))) :=
  ⟨tHash_len, by decide, integrity_iff_c3 tHash wPw wBlob2 tHash_len (by decide)⟩

/-- C10: recovery mutates its input buffer: after the rounds have run,
the blob's first 20 bytes (the salt region) hold the final round's
digest output, while the encrypted-key and trailing-digest regions are
unchanged and the length is preserved; any accepted recovery returns
exactly that mutated buffer. -/
theorem salt_mutation_c10 (hash : List Nat → List Nat) (pw blob : List Nat)
    (Hh : ∀ l, (hash l).length = DIGEST_LEN) (hl : 41 ≤ blob.length) :
    blobAfterOf hash pw blob
      = roundDigest hash pw (blob.take SALT_LEN)
          (numRoundsOf (encrKeyLenOf blob) - 1) ++ blob.drop SALT_LEN
    ∧ (blobAfterOf hash pw blob).take SALT_LEN
      = roundDigest hash pw (blob.take SALT_LEN)
          (numRoundsOf (encrKeyLenOf blob) - 1)
    ∧ (blobAfterOf hash pw blob).drop SALT_LEN = blob.drop SALT_LEN
    ∧ (blobAfterOf hash pw blob).length = blob.length
    ∧ ∀ p bA, recover hash pw KEY_PROTECTOR_OID blob = .ok (p, bA) →
        bA = blobAfterOf hash pw blob := by
  have hl40 : 40 ≤ blob.length := by omega
  have hpos : 0 < encrKeyLenOf blob := by
    simp only [encrKeyLenOf, SALT_LEN, DIGEST_LEN]
    omega
  obtain ⟨hR, _, _⟩ := numRoundsOf_bounds _ hpos
  have hRsucc : numRoundsOf (encrKeyLenOf blob)
      = (numRoundsOf (encrKeyLenOf blob) - 1) + 1 := by omega
  have hrdlen : (roundDigest hash pw (blob.take SALT_LEN)
      (numRoundsOf (encrKeyLenOf blob) - 1)).length = SALT_LEN := by
    rw [roundDigest_length hash pw _ Hh]
    rfl
  have hsnd : (keyRoundsOf hash pw blob).2
      = roundDigest hash pw (saltOf blob) (numRoundsOf (encrKeyLenOf blob) - 1) := by
    conv_lhs => rw [keyRoundsOf, hRsucc]
    rw [keyRounds_snd hash pw _ Hh _ _ _ _ (saltOf_length blob hl40)]
  have hmain : blobAfterOf hash pw blob
      = roundDigest hash pw (blob.take SALT_LEN)
          (numRoundsOf (encrKeyLenOf blob) - 1) ++ blob.drop SALT_LEN := by
    rw [blobAfterOf, hsnd]
    rfl
  refine ⟨hmain, ?_, ?_, ?_, ?_⟩
  · rw [hmain, List.take_left' hrdlen]
  · rw [hmain, List.drop_left' hrdlen]
  · rw [hmain, List.length_append, hrdlen, List.length_drop]
    simp only [SALT_LEN]
    omega
  · intro p bA hrec
    exact (recover_ok_elim hash pw blob p bA hrec).2

/-- Witness for C10 at the two-round blob `wBlob2`. -/
theorem salt_mutation_c10_witness :
    (∀ l, (tHash l).length = DIGEST_LEN) ∧ 41 ≤ wBlob2.length
    ∧ (blobAfterOf tHash wPw wBlob2
        = roundDigest tHash wPw (wBlob2.take SALT_LEN)
            (numRoundsOf (encrKeyLenOf wBlob2) - 1) ++ wBlob2.drop SALT_LEN
      ∧ (blobAfterOf tHash wPw wBlob2).take SALT_LEN
        = roundDigest tHash wPw (wBlob2.take SALT_LEN)
            (numRoundsOf (encrKeyLenOf wBlob2) - 1)
      ∧ (blobAfterOf tHash wPw wBlob2).drop SALT_LEN = wBlob2.drop SALT_LEN
      ∧ (blobAfterOf tHash wPw wBlob2).length = wBlob2.length
      ∧ ∀ p bA, recover tHash wPw KEY_PROTECTOR_OID wBlob2 = .ok (p, bA) →
          bA = blobAfterOf tHash wPw wBlob2) :=
  ⟨tHash_len, by decide, salt_mutation_c10 tHash wPw wBlob2 tHash_len (by decide)⟩

/-- C6 divergence: `readInt` is an unsigned 32-bit read, so the stored
chain-count bytes 255 255 255 255 produce 4294967295 rather than -1;
the negative-count guard cannot fire, and on the concrete keystore
`c6buf` the parse aborts out-of-range while trying to read that many
certificates, instead of producing the entry with an empty chain. -/
theorem negative_chain_count_c6 :
    beUInt [255, 255, 255, 255] = 4294967295
    ∧ ¬ beUInt [255, 255, 255, 255] < 0
    ∧ parseJKS tHash none c6buf = .error .outOfRange :=
  ⟨rfl, by decide, rfl⟩

/-- C7 counterexample: the keystore `c7buf` declares a 5-byte
certificate field of which only 2 bytes are present, yet the
passwordless parse succeeds and returns the entry built from the 2-byte
short read instead of failing. -/
theorem truncated_read_c7_counterexample :
    parseJKS tHash none c7buf = .ok [JKSEntry.trustedCert [] 0 [9, 9]]
    ∧ beUInt ((c7buf.drop 26).take 4) = 5
    ∧ c7buf.length = 32 :=
  ⟨rfl, rfl, rfl⟩

/-- C7 amended: a length-prefixed byte-field read that extends past the
end of the buffer is clamped to the available bytes without error (a
short read) while the cursor still advances by the full declared
length; parse can then fail only because a subsequent fixed-width read
(4-byte integer or 8-byte timestamp) runs out of range. -/
theorem truncated_read_c7_amended (buf : List Nat) (off n : Nat)
    (fed : List Nat) (h : buf.length < off + n) :
    readBytesM n (PState.mk buf off fed)
      = ((buf.drop off).take n,
         PState.mk buf (off + n) (fed ++ (buf.drop off).take n))
    ∧ ((buf.drop off).take n).length = buf.length - off
    ∧ readIntM (PState.mk buf (off + n) (fed ++ (buf.drop off).take n))
      = .error .outOfRange
    ∧ (buf.length < off + 8 →
        readLongM (PState.mk buf off fed) = .error .outOfRange) := by
  refine ⟨rfl, ?_, ?_, ?_⟩
  · simp only [List.length_take, List.length_drop]
    omega
  · rw [readIntM, if_neg ?hc]
    case hc =>
      show ¬ (off + n + 4 ≤ buf.length)
      omega
  · intro h8
    rw [readLongM, if_neg ?hd]
    case hd =>
      show ¬ ((readBytesM 8 (PState.mk buf off fed)).1.length = 8)
      show ¬ (((buf.drop off).take 8).length = 8)
      simp only [List.length_take, List.length_drop]
      omega

/-- Witness for the amended C7 at a 2-byte buffer with a declared
5-byte field. -/
theorem truncated_read_c7_amended_witness :
    ([1, 2] : List Nat).length < 0 + 5
    ∧ (readBytesM 5 (PState.mk [1, 2] 0 [])
        = ((([1, 2] : List Nat).drop 0).take 5,
           PState.mk [1, 2] (0 + 5) ([] ++ (([1, 2] : List Nat).drop 0).take 5))
      ∧ ((([1, 2] : List Nat).drop 0).take 5).length = ([1, 2] : List Nat).length - 0
      ∧ readIntM (PState.mk [1, 2] (0 + 5) ([] ++ (([1, 2] : List Nat).drop 0).take 5))
        = .error .outOfRange
      ∧ (([1, 2] : List Nat).length < 0 + 8 →
          readLongM (PState.mk [1, 2] 0 []) = .error .outOfRange)) :=
  ⟨by decide, truncated_read_c7_amended [1, 2] 0 5 [] (by decide)⟩

end JKS
